import Mathlib

/-!
Shallow embedding of the core of the `cwmc` live-transcription pipeline
(`src/livetranscripts/`), together with proofs settling the frozen claims
about it.  Python strings are modelled as `List Char`, int16 samples as `ℤ`
(with explicit wrap where numpy wraps), float durations and delays as `ℚ`,
and wall-clock timestamps as `ℕ`.  Wall-clock-dependent voice-activity
results (`SilenceDetector.is_silence` / `get_silence_duration`) and external
LLM / provider responses are universally quantified oracle inputs.
-/

/- ---------------------------------------------------------------------
Python string primitives used by the embedded functions.
--------------------------------------------------------------------- -/

/-- Characters of Python's default `str.strip` whitespace set. -/
def isPyWS (c : Char) : Bool :=
  c == ' ' || c == '\t' || c == '\n' || c == '\r' || c == '\x0b' || c == '\x0c'

/-- Python `str.strip()` (default whitespace). -/
def pyStrip (l : List Char) : List Char :=
  ((l.dropWhile isPyWS).reverse.dropWhile isPyWS).reverse

/-- Python `str.split('\n')`: every `'\n'` is a separator, so the result has
one (possibly empty) piece more than the number of newlines; the empty
string splits to `[""]`. -/
def splitOnNl : List Char → List (List Char)
  | [] => [[]]
  | c :: cs =>
    let r := splitOnNl cs
    if c = '\n' then [] :: r
    else
      match r with
      | [] => [[c]]
      | x :: xs => (c :: x) :: xs

/- ---------------------------------------------------------------------
Knowledge base (knowledge_base.py).
Documents are keyed by identifier; the Python `dict` (insertion-ordered) is
modelled as an association list.  `datetime.now()` values are `ℕ` inputs.
--------------------------------------------------------------------- -/

/-- A knowledge-base document (`KnowledgeDocument`): content plus creation
and last-update timestamps. -/
structure KnowledgeDocument where
  content : List Char
  created_at : ℕ
  updated_at : ℕ
deriving DecidableEq

/-- `KnowledgeDocument.update_content`: overwrite content, stamp `updated_at`
with the current time. -/
def KnowledgeDocument.update_content (d : KnowledgeDocument) (newContent : List Char)
    (now : ℕ) : KnowledgeDocument :=
  { d with content := newContent, updated_at := now }

/-- The knowledge base (`KnowledgeBase`): mapping from document id to
document, in insertion order. -/
structure KnowledgeBase where
  documents : List (String × KnowledgeDocument)
deriving DecidableEq

/-- Membership test `doc_id in self.documents`. -/
def KnowledgeBase.findDoc (kb : KnowledgeBase) (docId : String) : Option KnowledgeDocument :=
  (kb.documents.find? (fun p => p.1 == docId)).map (·.2)

/-- `KnowledgeBase.update_document`: `False` when the id is absent, otherwise
update the stored document in place and return `True`.  Returns the new
collection alongside the success flag. -/
def KnowledgeBase.update_document (kb : KnowledgeBase) (docId : String)
    (content : List Char) (now : ℕ) : Bool × KnowledgeBase :=
  if (kb.documents.find? (fun p => p.1 == docId)).isSome then
    (true,
      ⟨kb.documents.map (fun p =>
        if p.1 == docId then (p.1, p.2.update_content content now) else p)⟩)
  else
    (false, kb)

/- ---------------------------------------------------------------------
Title extraction (KnowledgeBase._extract_title).
--------------------------------------------------------------------- -/

/-- The fallback title constant. -/
def untitledDocument : List Char := "Untitled Document".toList

/-- Python `re.match(r'^#\s+(.+)$', line)`: a `#`, at least one whitespace
character, then a non-empty remainder (the group, subsequently stripped).
Because the input line is already stripped, the group equals the remainder
after the maximal whitespace run. -/
def matchH1 (line : List Char) : Option (List Char) :=
  match line with
  | '#' :: rest =>
    if rest.takeWhile isPyWS ≠ [] ∧ rest.dropWhile isPyWS ≠ [] then
      some (pyStrip (rest.dropWhile isPyWS))
    else none
  | _ => none

/-- Python `re.match(r'^##\s+(.+)$', line)`, analogous to `matchH1`. -/
def matchH2 (line : List Char) : Option (List Char) :=
  match line with
  | '#' :: '#' :: rest =>
    if rest.takeWhile isPyWS ≠ [] ∧ rest.dropWhile isPyWS ≠ [] then
      some (pyStrip (rest.dropWhile isPyWS))
    else none
  | _ => none

/-- One iteration of the header loop body: try H1 on the stripped line, then
H2 on the stripped line. -/
def headerTitle (line : List Char) : Option (List Char) :=
  match matchH1 (pyStrip line) with
  | some t => some t
  | none => matchH2 (pyStrip line)

/-- The first loop of `_extract_title`: scan the lines in order, returning
the first per-line header match (H1 tried before H2 on each line). -/
def findHeaderTitle : List (List Char) → Option (List Char)
  | [] => none
  | line :: rest =>
    match headerTitle line with
    | some t => some t
    | none => findHeaderTitle rest

/-- The second loop of `_extract_title`: first line whose strip is
non-empty, returned stripped. -/
def findFirstNonEmptyLine : List (List Char) → Option (List Char)
  | [] => none
  | line :: rest =>
    if pyStrip line ≠ [] then some (pyStrip line) else findFirstNonEmptyLine rest

/-- Truncation applied to a non-header title: over 50 characters becomes the
first 47 characters plus an ellipsis. -/
def truncateTitle (t : List Char) : List Char :=
  if t.length > 50 then t.take 47 ++ "...".toList else t

/-- `KnowledgeBase._extract_title`, translated line by line from
knowledge_base.py. -/
def extract_title (content : List Char) : List Char :=
  if content = [] then untitledDocument
  else
    let lines := splitOnNl (pyStrip content)
    match findHeaderTitle lines with
    | some t => t
    | none =>
      match findFirstNonEmptyLine lines with
      | some t => truncateTitle t
      | none => untitledDocument

/-- First H1 match over all lines (used to state the claimed rule). -/
def findFirstH1 : List (List Char) → Option (List Char)
  | [] => none
  | line :: rest =>
    match matchH1 (pyStrip line) with
    | some t => some t
    | none => findFirstH1 rest

/-- First H2 match over all lines (used to state the claimed rule). -/
def findFirstH2 : List (List Char) → Option (List Char)
  | [] => none
  | line :: rest =>
    match matchH2 (pyStrip line) with
    | some t => some t
    | none => findFirstH2 rest

/-- The title rule as the specification words it: the first `# Header` line
anywhere in the content takes priority over every `## Header` line; only
when no H1 line exists anywhere is the first H2 line used.  Written from
the spec sentence of claim C6 for comparison against `extract_title`. -/
def claimedTitle (content : List Char) : List Char :=
  if content = [] then untitledDocument
  else
    let lines := splitOnNl (pyStrip content)
    match findFirstH1 lines with
    | some t => t
    | none =>
      match findFirstH2 lines with
      | some t => t
      | none =>
        match findFirstNonEmptyLine lines with
        | some t => truncateTitle t
        | none => untitledDocument

/-- Restatement of the code's per-line search using library combinators,
used as the amended form of claim C6. -/
def amendedTitle (content : List Char) : List Char :=
  if content = [] then untitledDocument
  else
    let lines := splitOnNl (pyStrip content)
    match lines.findSome? headerTitle with
    | some t => t
    | none =>
      match (lines.map pyStrip).find? (fun l => !l.isEmpty) with
      | some t => truncateTitle t
      | none => untitledDocument

/- ---------------------------------------------------------------------
Audio normalisation (whisper_integration.py, AudioProcessor.normalize_audio).
--------------------------------------------------------------------- -/

/-- numpy absolute value on int16: `np.abs` wraps, so `abs(-32768) = -32768`. -/
def absInt16 (x : ℤ) : ℤ :=
  if x = -32768 then -32768 else |x|

/-- `np.max(np.abs(audio_data))` for a non-empty sample list (the empty case
is guarded before the call in the source). -/
def maxAbsInt16 : List ℤ → ℤ
  | [] => 0
  | x :: rest => if rest = [] then absInt16 x else max (absInt16 x) (maxAbsInt16 rest)

/-- Conversion toward zero, matching Python `int()` and numpy
`astype(np.int16)` rounding (int16 wrap omitted: every use in scope is
either on a non-negative quantity or inside a branch proved unreachable). -/
def truncToInt (q : ℚ) : ℤ :=
  if 0 ≤ q then ⌊q⌋ else -⌊-q⌋

/-- `AudioProcessor.normalize_audio`: rescale only when the computed peak
exceeds 32767.  Float arithmetic of the (unreachable) scaling branch is
modelled exactly over `ℚ`. -/
def normalize_audio (l : List ℤ) : List ℤ :=
  if l = [] then l
  else
    let maxVal := maxAbsInt16 l
    if maxVal > 32767 then
      let scale : ℚ := 32767 / (maxVal : ℚ)
      l.map (fun x => truncToInt ((x : ℚ) * scale))
    else l

/- ---------------------------------------------------------------------
VAD audio batcher (batching.py).
`SilenceDetector` mixes sample energy with wall-clock time, so the values
of `is_silence(chunk)` and `get_silence_duration()` observed by
`_process_audio_chunk` are treated as per-chunk oracle inputs.
--------------------------------------------------------------------- -/

/-- `BatchingConfig`: durations in seconds (`ℚ`), silence threshold in
milliseconds, sample rate in Hz. -/
structure BatchingConfig where
  min_batch_duration : ℚ
  max_batch_duration : ℚ
  silence_threshold : ℕ
  sample_rate : ℕ
  overlap_duration : ℚ
deriving DecidableEq

/-- The checks of `BatchingConfig.__post_init__`. -/
def BatchingConfig.valid (cfg : BatchingConfig) : Prop :=
  0 < cfg.min_batch_duration ∧
  cfg.min_batch_duration < cfg.max_batch_duration ∧
  0 < cfg.silence_threshold ∧
  0 < cfg.sample_rate

instance (cfg : BatchingConfig) : Decidable cfg.valid := by
  unfold BatchingConfig.valid; infer_instance

/-- An emitted `AudioBatch`.  `realLen` and `forced` are trace annotations:
`realLen` is the number of samples taken from the pending buffer (the batch
minus the prepended overlap) and `forced` marks emission via `force_batch`;
neither influences the dynamics. -/
structure EmittedBatch where
  audioData : List ℤ
  sequenceId : ℕ
  realLen : ℕ
  forced : Bool
deriving DecidableEq

/-- `AudioBatch.__post_init__` with the `duration` argument left at its
default `0.0`, as at both construction sites: the stored duration is the
total sample count (overlap included) over the constant 16000. -/
def batchDuration (b : EmittedBatch) : ℚ :=
  if 0 < b.audioData.length then (b.audioData.length : ℚ) / 16000 else 0

/-- Duration of the real (pending-buffer) audio of a batch under the
configured sample rate; the "effective duration" of the spec. -/
def effectiveDuration (cfg : BatchingConfig) (b : EmittedBatch) : ℚ :=
  (b.realLen : ℚ) / (cfg.sample_rate : ℚ)

/-- Mutable state of `VADAudioBatcher` relevant to batching: the pending
sample buffer, the next sequence id, and the remembered previous batch. -/
structure BatcherState where
  currentBatch : List ℤ
  sequenceId : ℕ
  previousBatchAudio : Option (List ℤ)
deriving DecidableEq

/-- `VADAudioBatcher.__init__` state. -/
def initialBatcherState : BatcherState := ⟨[], 0, none⟩

/-- `int(self.config.overlap_duration * self.config.sample_rate)`. -/
def overlapSampleCount (cfg : BatchingConfig) : ℤ :=
  truncToInt (cfg.overlap_duration * (cfg.sample_rate : ℚ))

/-- Python slice `p[-n:]` (note `p[-0:]` is the whole list and a negative
`-n` drops from the front, both as in CPython). -/
def lastSliceFrom (p : List ℤ) (n : ℤ) : List ℤ :=
  if n ≤ 0 then p.drop (-n).toNat
  else if (p.length : ℤ) ≤ n then p
  else p.drop (p.length - n.toNat)

/-- `VADAudioBatcher._calculate_overlap`. -/
def calculate_overlap (cfg : BatchingConfig) (prev : Option (List ℤ)) : Option (List ℤ) :=
  match prev with
  | none => none
  | some p =>
    let n := overlapSampleCount cfg
    if (p.length : ℤ) < n then some p
    else some (lastSliceFrom p n)

/-- `VADAudioBatcher._create_batch`: prepend the overlap when present and
non-empty, stamp the sequence id, remember the emitted audio for the next
overlap, bump the sequence counter.  The pending buffer is untouched here
(`_reset_batch` is a separate call, as in the source). -/
def create_batch (cfg : BatchingConfig) (st : BatcherState) (forced : Bool) :
    BatcherState × EmittedBatch :=
  let overlap := calculate_overlap cfg st.previousBatchAudio
  let audioData :=
    match overlap with
    | some o => if 0 < o.length then o ++ st.currentBatch else st.currentBatch
    | none => st.currentBatch
  let batch : EmittedBatch :=
    ⟨audioData, st.sequenceId, st.currentBatch.length, forced⟩
  (⟨st.currentBatch, st.sequenceId + 1, some audioData⟩, batch)

/-- `VADAudioBatcher._reset_batch`. -/
def reset_batch (st : BatcherState) : BatcherState :=
  { st with currentBatch := [] }

/-- `VADAudioBatcher._process_audio_chunk`:  append the chunk, compute the
pending duration, and emit when the max-duration rule or the
silence-after-min rule fires.  `isSilence` and `silenceDurationMs` are the
oracle values returned by the wall-clock silence detector for this chunk. -/
def process_audio_chunk (cfg : BatchingConfig) (st : BatcherState) (chunk : List ℤ)
    (isSilence : Bool) (silenceDurationMs : ℕ) : BatcherState × Option EmittedBatch :=
  let cur := st.currentBatch ++ chunk
  let st1 : BatcherState := { st with currentBatch := cur }
  let currentDuration : ℚ := (cur.length : ℚ) / (cfg.sample_rate : ℚ)
  if cfg.max_batch_duration ≤ currentDuration ∨
      (cfg.min_batch_duration ≤ currentDuration ∧ isSilence = true ∧
        cfg.silence_threshold ≤ silenceDurationMs) then
    let sb := create_batch cfg st1 false
    (reset_batch sb.1, some sb.2)
  else
    (st1, none)

/-- `VADAudioBatcher.force_batch`: emit the pending buffer when non-empty. -/
def force_batch (cfg : BatchingConfig) (st : BatcherState) :
    BatcherState × Option EmittedBatch :=
  if 0 < st.currentBatch.length then
    let sb := create_batch cfg st true
    (reset_batch sb.1, some sb.2)
  else
    (st, none)

/-- A consumed input of the batcher: an audio chunk together with the
silence-detector oracle values, or a forced flush. -/
inductive BatcherEvent where
  | chunk (samples : List ℤ) (isSilence : Bool) (silenceDurationMs : ℕ)
  | flush
deriving DecidableEq

/-- One batcher transition. -/
def batcherStep (cfg : BatchingConfig) (st : BatcherState) :
    BatcherEvent → BatcherState × Option EmittedBatch
  | .chunk samples isSil ms => process_audio_chunk cfg st samples isSil ms
  | .flush => force_batch cfg st

/-- Run the batcher over a list of events, collecting emitted batches in
emission order. -/
def runBatcher (cfg : BatchingConfig) (st : BatcherState) :
    List BatcherEvent → BatcherState × List EmittedBatch
  | [] => (st, [])
  | e :: es =>
    let so := batcherStep cfg st e
    let rest := runBatcher cfg so.1 es
    (rest.1, (match so.2 with | some b => [b] | none => []) ++ rest.2)

/-- Batches emitted by a fresh batcher on a list of events. -/
def emittedBatches (cfg : BatchingConfig) (events : List BatcherEvent) : List EmittedBatch :=
  (runBatcher cfg initialBatcherState events).2

/-- The overlap relation between the audio of two consecutively emitted
batches: when the earlier batch has at least `n` samples its last `n`
samples are the first `n` samples of the later batch; a shorter earlier
batch is replayed whole as a prefix of the later batch. -/
def overlapLink (n : ℕ) (p next : List ℤ) : Prop :=
  if n ≤ p.length then next.take n = p.drop (p.length - n)
  else next.take p.length = p

instance (n : ℕ) (p next : List ℤ) : Decidable (overlapLink n p next) := by
  unfold overlapLink; infer_instance

/-- `overlapLink` on emitted batches. -/
def overlapConsistent (n : ℕ) (b1 b2 : EmittedBatch) : Prop :=
  overlapLink n b1.audioData b2.audioData

instance (n : ℕ) (b1 b2 : EmittedBatch) : Decidable (overlapConsistent n b1 b2) := by
  unfold overlapConsistent; infer_instance

/- ---------------------------------------------------------------------
Recording flag and audio-processing loop (live_qa.py, main.py).
--------------------------------------------------------------------- -/

/-- Initial value of `LiveQAServer.recording_enabled` (live_qa.py,
`__init__`). -/
def live_qa_server_init_recording_enabled : Bool := true

/-- Initial value of `LiveTranscriptsApp.recording_paused` (main.py,
`__init__`). -/
def live_transcripts_app_init_recording_paused : Bool := false

/-- One pass of `LiveTranscriptsApp._audio_processing_loop` restricted to
its effect on the segmenter: when recording is paused the loop sleeps and
continues, so the arriving chunk never reaches the batcher and neither the
pending buffer, the silence detector, nor the sequence counter moves. -/
def audio_processing_iteration (cfg : BatchingConfig) (recordingPaused : Bool)
    (st : BatcherState) (chunk : List ℤ) (isSilence : Bool) (silenceMs : ℕ) :
    BatcherState × Option EmittedBatch :=
  if recordingPaused then (st, none)
  else process_audio_chunk cfg st chunk isSilence silenceMs

/- ---------------------------------------------------------------------
Suggested questions (gemini_integration.py, QAHandler.generate_contextual_questions).
The LLM call is an oracle input: `.ok response` for a returned text,
`.error ()` for a raised exception.  The knowledge-base content and the
session intent only shape the prompt, never the parsing, so they are not
parameters here.
--------------------------------------------------------------------- -/

/-- Characters removed by `line.lstrip('0123456789.-*•● ')`. -/
def questionMarkerChars : List Char :=
  ['0', '1', '2', '3', '4', '5', '6', '7', '8', '9', '.', '-', '*', '•', '●', ' ']

/-- The list-marker strip applied to each candidate line. -/
def stripQuestionMarkers (l : List Char) : List Char :=
  l.dropWhile (fun c => questionMarkerChars.contains c)

/-- The defaults used to pad a short parsed question list. -/
def paddingDefaultQuestions : List (List Char) :=
  ["What are the key technical details mentioned?".toList,
   "What are the next steps or action items?".toList,
   "Who is responsible for each task?".toList,
   "What timeline was discussed?".toList]

/-- The defaults returned from the exception handler of
`generate_contextual_questions`. -/
def errorDefaultQuestions : List (List Char) :=
  ["What are the main topics being discussed?".toList,
   "What decisions have been made so far?".toList,
   "Are there any action items or next steps?".toList,
   "What questions or concerns were raised?".toList]

/-- The line loop of `generate_contextual_questions`: strip each line, skip
empty ones, strip list markers, keep the lines that are non-empty and
contain a question mark. -/
def collectQuestions : List (List Char) → List (List Char)
  | [] => []
  | line :: rest =>
    let l := pyStrip line
    if l = [] then collectQuestions rest
    else
      let l2 := stripQuestionMarkers l
      if l2 ≠ [] ∧ '?' ∈ l2 then l2 :: collectQuestions rest
      else collectQuestions rest

/-- The padding loop: `while len(questions) < 4 and default_questions:
questions.append(default_questions.pop(0))`. -/
def padQuestions : List (List Char) → List (List Char) → List (List Char)
  | qs, [] => qs
  | qs, d :: ds => if qs.length < 4 then padQuestions (qs ++ [d]) ds else qs

/-- `QAHandler.generate_contextual_questions`: empty result when the client
is unset or the context text is empty; otherwise parse the LLM response
(padding with `paddingDefaultQuestions` and truncating to four), or return
`errorDefaultQuestions` when the call raised. -/
def generate_contextual_questions (clientSet : Bool) (contextText : List Char)
    (llmResponse : Except Unit (List Char)) : List (List Char) :=
  if clientSet = false then []
  else if contextText = [] then []
  else
    match llmResponse with
    | .error _ => errorDefaultQuestions
    | .ok response =>
      let lines := splitOnNl (pyStrip response)
      (padQuestions (collectQuestions lines) paddingDefaultQuestions).take 4

/- ---------------------------------------------------------------------
Retry with exponential backoff (whisper_integration.py, RetryManager) and
model fallback (transcription/manager.py).  The per-call outcomes are an
oracle `outcome : ℕ → Option α` indexed by the value of `current_attempt`
at call time; `none` models a raised exception (of any kind), `some a` a
successful result.
--------------------------------------------------------------------- -/

/-- `RetryManager` state. -/
structure RetryManager where
  max_retries : ℕ
  base_delay : ℚ
  current_attempt : ℕ
deriving DecidableEq

/-- `RetryManager.should_retry`. -/
def RetryManager.should_retry (r : RetryManager) : Bool :=
  r.current_attempt < r.max_retries

/-- `RetryManager.get_delay`: `base_delay * 2 ** (current_attempt - 1)`
(Python exponentiation of ints is exact, and negative exponents give exact
dyadic floats, so `ℚ` with an integer exponent is a faithful model). -/
def RetryManager.get_delay (r : RetryManager) : ℚ :=
  r.base_delay * (2 : ℚ) ^ ((r.current_attempt : ℤ) - 1)

/-- `RetryManager.wait`: sleeps `get_delay` only from the second call on.
Returns the slept delay, if any. -/
def RetryManager.waitDelay (r : RetryManager) : Option ℚ :=
  if 0 < r.current_attempt then some r.get_delay else none

/-- Observable trace of one decorated call: the backoff delays slept, the
number of calls issued to the wrapped function, and the final outcome
(`none` models re-raising the last exception). -/
structure RetryTrace (α : Type) where
  delays : List ℚ
  calls : ℕ
  result : Option α
deriving DecidableEq

/-- The loop of `RetryManager.async_retry`'s wrapper, with fuel; the wrapper
starts it with `fuel = max_retries` matching `current_attempt = 0`, which
makes the fuel bound unreachable. -/
def asyncRetryRun {α : Type} (outcome : ℕ → Option α) (mr : ℕ) (base : ℚ) :
    ℕ → ℕ → RetryTrace α
  | _, 0 => ⟨[], 0, none⟩
  | attempt, fuel + 1 =>
    let r : RetryManager := ⟨mr, base, attempt⟩
    if r.should_retry then
      let ds := match r.waitDelay with | some d => [d] | none => []
      match outcome attempt with
      | some a => ⟨ds, 1, some a⟩
      | none =>
        let t := asyncRetryRun outcome mr base (attempt + 1) fuel
        ⟨ds ++ t.delays, 1 + t.calls, t.result⟩
    else ⟨[], 0, none⟩

/-- `RetryManager.async_retry(max_retries, base_delay)` applied to a
function whose call outcomes are given by `outcome`. -/
def async_retry {α : Type} (outcome : ℕ → Option α) (mr : ℕ) (base : ℚ) : RetryTrace α :=
  asyncRetryRun outcome mr base 0 mr

/-- `TranscriptionManager.transcribe_batch_with_fallback`: try each model of
`[primary] + fallbacks` in order, return the first success; when every
model fails the last exception is re-raised (`none`). -/
def transcribe_batch_with_fallback {μ α : Type} (runModel : μ → Option α) :
    List μ → Option α
  | [] => none
  | m :: rest =>
    match runModel m with
    | some a => some a
    | none => transcribe_batch_with_fallback runModel rest

/- ---------------------------------------------------------------------
Concrete configurations and oracles used by witnesses and counterexamples.
--------------------------------------------------------------------- -/

/-- A valid batching configuration small enough to evaluate: 1 s minimum,
2 s maximum, 1 Hz sample rate, no overlap. -/
def cfgTight : BatchingConfig := ⟨1, 2, 500, 1, 0⟩

/-- A valid batching configuration with a 2-sample overlap window at
1 Hz. -/
def cfgOverlap : BatchingConfig := ⟨1, 10, 500, 1, 2⟩

/-- An event feed whose third chunk pushes the pending duration from below
the maximum to strictly above it. -/
def eventsTight : List BatcherEvent := [.chunk [0, 0, 0] false 0]

/-- Two forced flushes around single-sample chunks: the first emitted batch
is shorter than the overlap window. -/
def eventsOverlap : List BatcherEvent :=
  [.chunk [5] false 0, .flush, .chunk [7] false 0, .flush]

/-- Retry outcome oracle succeeding on the third call. -/
def outcomeThird : ℕ → Option ℕ := fun i => if i = 2 then some 1 else none

/-- Per-model outcome oracles: model 0 always raises, model 1 succeeds at
once. -/
def modelOracles : ℕ → ℕ → Option ℕ := fun m i =>
  if m = 1 ∧ i = 0 then some 5 else none

/-- The document content separating the emitted-title reading from the
claimed one: an H2 line before an H1 line. -/
def h2ThenH1 : List Char := "## A".toList ++ ['\n'] ++ "# B".toList

/-- A one-document knowledge base used by witnesses. -/
def kbOne : KnowledgeBase := ⟨[("a", ⟨"x".toList, 0, 0⟩)]⟩

/-- The run-time bound maintained by the pending buffer: strictly below the
maximum batch duration (used as the induction invariant for claim C4). -/
def pendingOk (cfg : BatchingConfig) (st : BatcherState) : Prop :=
  (st.currentBatch.length : ℚ) / (cfg.sample_rate : ℚ) < cfg.max_batch_duration

/- ---------------------------------------------------------------------
Theorems.  Helper lemmas first, then one theorem per claim (with witnesses
and counterexamples where required).
--------------------------------------------------------------------- -/

theorem absInt16_le_of_int16 (x : ℤ) (h1 : -32768 ≤ x) (h2 : x ≤ 32767) :
    absInt16 x ≤ 32767 := by
  unfold absInt16
  split
  · omega
  · rename_i hx
    rw [abs_le]
    omega

theorem maxAbsInt16_le_of_int16 (l : List ℤ)
    (h : ∀ x ∈ l, -32768 ≤ x ∧ x ≤ 32767) : maxAbsInt16 l ≤ 32767 := by
  induction l with
  | nil => simp [maxAbsInt16]
  | cons x rest ih =>
    have hx := h x (List.mem_cons_self x rest)
    have hr : ∀ y ∈ rest, -32768 ≤ y ∧ y ≤ 32767 :=
      fun y hy => h y (List.mem_cons_of_mem x hy)
    show (if rest = [] then absInt16 x else max (absInt16 x) (maxAbsInt16 rest)) ≤ 32767
    split
    · exact absInt16_le_of_int16 x hx.1 hx.2
    · exact max_le (absInt16_le_of_int16 x hx.1 hx.2) (ih hr)

/-- C8: for every int16 sample array the audio normalisation step is the
identity: the rescaling branch requires the peak value computed by
`np.max(np.abs(·))` to exceed 32767, which no int16 input can produce
(numpy's wrapping absolute value keeps even -32768 below the bound), so the
promised peak normalisation never alters the samples. -/
theorem normalize_audio_identity (l : List ℤ)
    (h : ∀ x ∈ l, -32768 ≤ x ∧ x ≤ 32767) : normalize_audio l = l := by
  unfold normalize_audio
  split
  · rfl
  · rw [if_neg]
    have := maxAbsInt16_le_of_int16 l h
    omega

/-- Witness for `normalize_audio_identity` at a list containing both int16
extremes. -/
theorem normalize_audio_identity_witness :
    (∀ x ∈ [(-32768 : ℤ), 0, 32767], -32768 ≤ x ∧ x ≤ 32767) ∧
    normalize_audio [(-32768 : ℤ), 0, 32767] = [(-32768 : ℤ), 0, 32767] :=
  ⟨by decide, normalize_audio_identity [(-32768 : ℤ), 0, 32767] (by decide)⟩

/-- C10: updating a document id that is not present returns `False` and
leaves the document collection entirely unchanged. -/
theorem update_document_missing (kb : KnowledgeBase) (docId : String)
    (content : List Char) (now : ℕ) (h : kb.findDoc docId = none) :
    kb.update_document docId content now = (false, kb) := by
  unfold KnowledgeBase.update_document
  rw [if_neg]
  intro hs
  unfold KnowledgeBase.findDoc at h
  rcases Option.isSome_iff_exists.mp hs with ⟨p, hp⟩
  rw [hp] at h
  simp at h

/-- Witness for `update_document_missing` on a one-document base and an
absent id. -/
theorem update_document_missing_witness :
    kbOne.findDoc "b" = none ∧
    kbOne.update_document "b" "y".toList 5 = (false, kbOne) :=
  ⟨by decide, update_document_missing kbOne "b" "y".toList 5 (by decide)⟩

/-- C1: the initial recording state of the code contradicts the claim and
the repository's own tests.  `LiveQAServer.__init__` sets
`recording_enabled = True` and `LiveTranscriptsApp.__init__` sets
`recording_paused = False`, while `tests/test_recording_default_state.py`
asserts `recording_enabled is False` and `recording_paused is True`.  The
discard half of the claim does hold: while recording is paused an arriving
frame leaves the segmenter state untouched and emits nothing. -/
theorem recording_initially_enabled_bug :
    live_qa_server_init_recording_enabled = true ∧
    live_transcripts_app_init_recording_paused = false ∧
    ∀ (cfg : BatchingConfig) (st : BatcherState) (chunk : List ℤ)
      (sil : Bool) (ms : ℕ),
      audio_processing_iteration cfg true st chunk sil ms = (st, none) := by
  refine ⟨rfl, rfl, fun cfg st chunk sil ms => ?_⟩
  rfl

theorem findHeaderTitle_eq_findSome? (lines : List (List Char)) :
    findHeaderTitle lines = lines.findSome? headerTitle := by
  induction lines with
  | nil => rfl
  | cons line rest ih =>
    show (match headerTitle line with
          | some t => some t
          | none => findHeaderTitle rest) = _
    rw [List.findSome?_cons]
    cases headerTitle line with
    | some t => rfl
    | none => exact ih

theorem findFirstNonEmptyLine_eq_find? (lines : List (List Char)) :
    findFirstNonEmptyLine lines = (lines.map pyStrip).find? (fun l => !l.isEmpty) := by
  induction lines with
  | nil => rfl
  | cons line rest ih =>
    show (if pyStrip line ≠ [] then some (pyStrip line) else findFirstNonEmptyLine rest) = _
    rw [List.map_cons, List.find?_cons]
    cases hl : pyStrip line with
    | nil => simpa using ih
    | cons c cs => simp

/-- C6 counterexample: on a document whose first header line is `## A` and
whose second line is `# B`, the code takes the H2 text while the claimed
rule demands the H1 text found later in the document. -/
theorem extract_title_counterexample :
    extract_title h2ThenH1 = "A".toList ∧
    claimedTitle h2ThenH1 = "B".toList ∧
    ("A".toList : List Char) ≠ "B".toList := by
  refine ⟨by decide, by decide, by decide⟩

/-- C6 amended: the extracted title is the text of the first line, in
document order, matching either header form (`#` tried before `##` on each
single line); an H1 line later in the document does not override an earlier
H2 line.  Otherwise the first non-empty line is used, truncated to 50
characters with an ellipsis when longer, and failing that the title is
"Untitled Document". -/
theorem extract_title_amended (content : List Char) :
    extract_title content = amendedTitle content := by
  unfold extract_title amendedTitle
  simp only [findHeaderTitle_eq_findSome?, findFirstNonEmptyLine_eq_find?]

theorem collectQuestions_sound (lines : List (List Char)) :
    ∀ q ∈ collectQuestions lines, q ≠ [] ∧ '?' ∈ q := by
  induction lines with
  | nil => intro q hq; simp [collectQuestions] at hq
  | cons line rest ih =>
    intro q hq
    unfold collectQuestions at hq
    by_cases h1 : pyStrip line = []
    · rw [if_pos h1] at hq
      exact ih q hq
    · rw [if_neg h1] at hq
      by_cases h2 : stripQuestionMarkers (pyStrip line) ≠ [] ∧
          '?' ∈ stripQuestionMarkers (pyStrip line)
      · rw [if_pos h2] at hq
        rcases List.mem_cons.mp hq with rfl | hq
        · exact h2
        · exact ih q hq
      · rw [if_neg h2] at hq
        exact ih q hq

theorem padQuestions_mem (ds : List (List Char)) :
    ∀ qs q, q ∈ padQuestions qs ds → q ∈ qs ∨ q ∈ ds := by
  induction ds with
  | nil => intro qs q hq; exact Or.inl hq
  | cons d ds ih =>
    intro qs q hq
    unfold padQuestions at hq
    by_cases hlen : qs.length < 4
    · rw [if_pos hlen] at hq
      rcases ih (qs ++ [d]) q hq with h | h
      · rcases List.mem_append.mp h with h | h
        · exact Or.inl h
        · exact Or.inr (List.mem_cons.mpr (Or.inl (List.mem_singleton.mp h)))
      · exact Or.inr (List.mem_cons_of_mem d h)
    · rw [if_neg hlen] at hq
      exact Or.inl hq

theorem padQuestions_length (ds : List (List Char)) :
    ∀ qs, 4 ≤ qs.length + ds.length → 4 ≤ (padQuestions qs ds).length := by
  induction ds with
  | nil => intro qs h; simpa [padQuestions] using h
  | cons d ds ih =>
    intro qs h
    unfold padQuestions
    by_cases hlen : qs.length < 4
    · rw [if_pos hlen]
      refine ih (qs ++ [d]) ?_
      simp only [List.length_append, List.length_singleton]
      simp only [List.length_cons] at h
      omega
    · rw [if_neg hlen]
      omega

/-- C2 counterexample: an invocation with an empty context store returns the
empty list, not four questions and not the padding defaults, even when the
LLM would answer with four well-formed questions. -/
theorem suggested_questions_counterexample :
    generate_contextual_questions true [] (.ok ("A? B? C? D?".toList)) = [] ∧
    (generate_contextual_questions true [] (.ok ("A? B? C? D?".toList))).length ≠ 4 ∧
    generate_contextual_questions true [] (.ok ("A? B? C? D?".toList)) ≠
      paddingDefaultQuestions := by
  refine ⟨rfl, by decide, by decide⟩

/-- C2 amended: when the LLM client is initialised and the context text is
non-empty, every invocation of the suggested-question operation (whether
the LLM call returns or raises) yields exactly four questions, each
non-empty and containing a question mark; with an empty context store (or
an uninitialised client) the operation instead returns the empty list. -/
theorem suggested_questions_shape (contextText : List Char)
    (llm : Except Unit (List Char)) (hctx : contextText ≠ []) :
    (generate_contextual_questions true contextText llm).length = 4 ∧
    (∀ q ∈ generate_contextual_questions true contextText llm,
      q ≠ [] ∧ '?' ∈ q) := by
  unfold generate_contextual_questions
  rw [if_neg (by simp), if_neg hctx]
  cases llm with
  | error e =>
    show errorDefaultQuestions.length = 4 ∧
      ∀ q ∈ errorDefaultQuestions, q ≠ [] ∧ '?' ∈ q
    exact ⟨by decide, by decide⟩
  | ok response =>
    constructor
    · rw [List.length_take]
      have h4 : 4 ≤ (padQuestions
          (collectQuestions (splitOnNl (pyStrip response))) paddingDefaultQuestions).length := by
        refine padQuestions_length paddingDefaultQuestions _ ?_
        show 4 ≤ _ + 4
        omega
      omega
    · intro q hq
      have hq' := List.take_subset 4 _ hq
      rcases padQuestions_mem paddingDefaultQuestions _ q hq' with h | h
      · exact collectQuestions_sound _ q h
      · have hp : ∀ p ∈ paddingDefaultQuestions, p ≠ [] ∧ '?' ∈ p := by decide
        exact hp q h

/-- Witness for `suggested_questions_shape` on a one-character context and a
raising LLM call. -/
theorem suggested_questions_shape_witness :
    ("x".toList : List Char) ≠ [] ∧
    (generate_contextual_questions true "x".toList (.error ())).length = 4 ∧
    (∀ q ∈ generate_contextual_questions true "x".toList (.error ()),
      q ≠ [] ∧ '?' ∈ q) :=
  ⟨by decide,
    (suggested_questions_shape "x".toList (.error ()) (by decide)).1,
    (suggested_questions_shape "x".toList (.error ()) (by decide)).2⟩

/-- C3 counterexample: when the LLM call raises, the operation returns the
error-handler defaults, which are not the padding defaults named by the
claim. -/
theorem error_defaults_counterexample :
    generate_contextual_questions true "x".toList (.error ()) = errorDefaultQuestions ∧
    errorDefaultQuestions ≠ paddingDefaultQuestions := by
  refine ⟨rfl, by decide⟩

/-- C3 amended: when the LLM call inside the suggested-question operation
fails, the operation returns a fixed default four-question set — "What are
the main topics being discussed?", "What decisions have been made so far?",
"Are there any action items or next steps?", "What questions or concerns
were raised?" — each non-empty and containing a question mark, and this set
differs from the defaults used for padding short successful responses. -/
theorem error_defaults_returned (contextText : List Char) (hctx : contextText ≠ []) :
    generate_contextual_questions true contextText (.error ()) = errorDefaultQuestions ∧
    errorDefaultQuestions.length = 4 ∧
    (∀ q ∈ errorDefaultQuestions, q ≠ [] ∧ '?' ∈ q) ∧
    errorDefaultQuestions ≠ paddingDefaultQuestions := by
  refine ⟨?_, by decide, by decide, by decide⟩
  unfold generate_contextual_questions
  rw [if_neg (by simp), if_neg hctx]

/-- Witness for `error_defaults_returned` at a one-character context. -/
theorem error_defaults_returned_witness :
    ("x".toList : List Char) ≠ [] ∧
    generate_contextual_questions true "x".toList (.error ()) = errorDefaultQuestions :=
  ⟨by decide, (error_defaults_returned "x".toList (by decide)).1⟩




theorem create_batch_realLen (cfg : BatchingConfig) (st : BatcherState) (forced : Bool) :
    (create_batch cfg st forced).2.realLen = st.currentBatch.length := rfl

theorem create_batch_forced (cfg : BatchingConfig) (st : BatcherState) (forced : Bool) :
    (create_batch cfg st forced).2.forced = forced := rfl

theorem create_batch_prev (cfg : BatchingConfig) (st : BatcherState) (forced : Bool) :
    (create_batch cfg st forced).1.previousBatchAudio =
      some (create_batch cfg st forced).2.audioData := rfl

theorem create_batch_len_le (cfg : BatchingConfig) (st : BatcherState) (forced : Bool) :
    st.currentBatch.length ≤ (create_batch cfg st forced).2.audioData.length := by
  unfold create_batch
  cases calculate_overlap cfg st.previousBatchAudio with
  | none => simp
  | some o =>
    simp only
    split
    · simp
    · simp

theorem process_audio_chunk_eq (cfg : BatchingConfig) (st : BatcherState)
    (chunk : List ℤ) (isSil : Bool) (ms : ℕ) :
    process_audio_chunk cfg st chunk isSil ms =
      if cfg.max_batch_duration ≤
            ((st.currentBatch ++ chunk).length : ℚ) / (cfg.sample_rate : ℚ) ∨
          (cfg.min_batch_duration ≤
              ((st.currentBatch ++ chunk).length : ℚ) / (cfg.sample_rate : ℚ) ∧
            isSil = true ∧ cfg.silence_threshold ≤ ms) then
        (reset_batch (create_batch cfg
            ⟨st.currentBatch ++ chunk, st.sequenceId, st.previousBatchAudio⟩ false).1,
          some (create_batch cfg
            ⟨st.currentBatch ++ chunk, st.sequenceId, st.previousBatchAudio⟩ false).2)
      else
        (⟨st.currentBatch ++ chunk, st.sequenceId, st.previousBatchAudio⟩, none) := rfl

theorem force_batch_eq (cfg : BatchingConfig) (st : BatcherState) :
    force_batch cfg st =
      if 0 < st.currentBatch.length then
        (reset_batch (create_batch cfg st true).1, some (create_batch cfg st true).2)
      else (st, none) := rfl

theorem emitted_batch_nonempty (cfg : BatchingConfig) (hv : cfg.valid)
    (st : BatcherState) (e : BatcherEvent) :
    ∀ b, (batcherStep cfg st e).2 = some b → 0 < b.audioData.length := by
  intro b hb
  obtain ⟨hmin, hminmax, _, hrate⟩ := hv
  cases e with
  | flush =>
    rw [show batcherStep cfg st .flush = force_batch cfg st from rfl,
      force_batch_eq] at hb
    by_cases hcur : 0 < st.currentBatch.length
    · rw [if_pos hcur] at hb
      simp only [Option.some.injEq] at hb
      subst hb
      exact lt_of_lt_of_le hcur (create_batch_len_le cfg st true)
    · rw [if_neg hcur] at hb
      exact absurd hb (by simp)
  | chunk samples isSil ms =>
    rw [show batcherStep cfg st (.chunk samples isSil ms) =
        process_audio_chunk cfg st samples isSil ms from rfl,
      process_audio_chunk_eq] at hb
    set cur := st.currentBatch ++ samples with hcurdef
    by_cases hg : cfg.max_batch_duration ≤ (cur.length : ℚ) / (cfg.sample_rate : ℚ) ∨
        (cfg.min_batch_duration ≤ (cur.length : ℚ) / (cfg.sample_rate : ℚ) ∧
          isSil = true ∧ cfg.silence_threshold ≤ ms)
    · rw [if_pos hg] at hb
      simp only [Option.some.injEq] at hb
      subst hb
      have hlen : 0 < cur.length := by
        by_contra hzero
        have h0 : cur.length = 0 := by omega
        have hd : (cur.length : ℚ) / (cfg.sample_rate : ℚ) = 0 := by
          rw [h0]; simp
        rcases hg with h | h
        · rw [hd] at h
          exact absurd h (not_le.mpr (lt_trans hmin hminmax))
        · obtain ⟨h1, -⟩ := h
          rw [hd] at h1
          exact absurd h1 (not_le.mpr hmin)
      calc 0 < cur.length := hlen
        _ ≤ _ := create_batch_len_le cfg ⟨cur, st.sequenceId, st.previousBatchAudio⟩ false
    · rw [if_neg hg] at hb
      exact absurd hb (by simp)

theorem runBatcher_forall (cfg : BatchingConfig) (P : EmittedBatch → Prop)
    (I : BatcherState → Prop) (E : BatcherEvent → Prop)
    (hstep : ∀ st e, I st → E e →
      I (batcherStep cfg st e).1 ∧ (∀ b, (batcherStep cfg st e).2 = some b → P b)) :
    ∀ es st, (∀ e ∈ es, E e) → I st → ∀ b ∈ (runBatcher cfg st es).2, P b := by
  intro es
  induction es with
  | nil =>
    intro st _ _ b hb
    simp [runBatcher] at hb
  | cons e es ih =>
    intro st hE hI b hb
    have hstep' := hstep st e hI (hE e (List.mem_cons_self e es))
    have hE' : ∀ e2 ∈ es, E e2 := fun e2 he2 => hE e2 (List.mem_cons_of_mem e he2)
    have hb' : b ∈ (match (batcherStep cfg st e).2 with
        | some b0 => [b0] | none => []) ++ (runBatcher cfg (batcherStep cfg st e).1 es).2 := hb
    rcases List.mem_append.mp hb' with h | h
    · cases hob : (batcherStep cfg st e).2 with
      | none => rw [hob] at h; simp at h
      | some b0 =>
        rw [hob] at h
        have hbb := List.mem_singleton.mp h
        subst hbb
        exact hstep'.2 _ hob
    · exact ih (batcherStep cfg st e).1 hE' hstep'.1 b h

/-- C9: every batch emitted by the segmenter carries a duration equal to its
total sample count — prepended overlap included — divided by the constant
16000, regardless of the configured sample rate; so for non-16 kHz
configurations the duration accounting is off by the factor
`sample_rate / 16000`. -/
theorem batch_duration_uses_constant_rate (cfg : BatchingConfig) (hv : cfg.valid)
    (events : List BatcherEvent) :
    ∀ b ∈ emittedBatches cfg events,
      0 < b.audioData.length ∧
      batchDuration b = (b.audioData.length : ℚ) / 16000 := by
  refine runBatcher_forall cfg _ (fun _ => True) (fun _ => True)
    (fun st e _ _ => ⟨trivial, fun b hb => ?_⟩) events initialBatcherState
    (fun _ _ => trivial) trivial
  have hlen := emitted_batch_nonempty cfg hv st e b hb
  refine ⟨hlen, ?_⟩
  unfold batchDuration
  rw [if_pos hlen]

theorem cfgTight_valid : cfgTight.valid := by
  refine ⟨?_, ?_, ?_, ?_⟩ <;> norm_num [cfgTight]

theorem tight_step :
    process_audio_chunk cfgTight ⟨[], 0, none⟩ [0, 0, 0] false 0 =
      (⟨[], 1, some [0, 0, 0]⟩, some ⟨[0, 0, 0], 0, 3, false⟩) := by
  rw [process_audio_chunk_eq, if_pos]
  · rfl
  · left
    show cfgTight.max_batch_duration ≤ _
    norm_num [cfgTight]

theorem emitted_tight :
    emittedBatches cfgTight eventsTight = [⟨[0, 0, 0], 0, 3, false⟩] := by
  unfold emittedBatches eventsTight initialBatcherState runBatcher
  rw [show batcherStep cfgTight ⟨[], 0, none⟩ (.chunk [0, 0, 0] false 0) =
      process_audio_chunk cfgTight ⟨[], 0, none⟩ [0, 0, 0] false 0 from rfl, tight_step]
  rfl

/-- Witness for `batch_duration_uses_constant_rate` at a 1 Hz configuration:
the three-sample batch is stamped with duration 3/16000 rather than 3 s. -/
theorem batch_duration_uses_constant_rate_witness :
    cfgTight.valid ∧
    (∀ b ∈ emittedBatches cfgTight eventsTight,
      0 < b.audioData.length ∧
      batchDuration b = (b.audioData.length : ℚ) / 16000) ∧
    batchDuration ⟨[0, 0, 0], 0, 3, false⟩ = 3 / 16000 :=
  ⟨cfgTight_valid,
    batch_duration_uses_constant_rate cfgTight cfgTight_valid eventsTight,
    by norm_num [batchDuration]⟩

/-- C4 counterexample: with a valid configuration (1 s min, 2 s max, 1 Hz) a
single three-sample chunk produces a non-forced batch whose effective
duration 3 s exceeds `max_batch_duration`, because the chunk is appended
before the max-duration check. -/
theorem effective_duration_counterexample :
    cfgTight.valid ∧
    emittedBatches cfgTight eventsTight = [⟨[0, 0, 0], 0, 3, false⟩] ∧
    (⟨[0, 0, 0], 0, 3, false⟩ : EmittedBatch).forced = false ∧
    ¬ effectiveDuration cfgTight ⟨[0, 0, 0], 0, 3, false⟩ ≤ cfgTight.max_batch_duration := by
  refine ⟨cfgTight_valid, emitted_tight, rfl, ?_⟩
  norm_num [effectiveDuration, cfgTight]


/-- C4 amended: for every emitted batch, a non-forced batch has effective
duration at least `min_batch_duration`, and every batch (forced or not) has
effective duration strictly below `max_batch_duration` plus the duration of
one chunk (`L` bounds the chunk length in samples); the upper bound
`max_batch_duration` itself can be overshot by less than one chunk.  A
force-flushed batch may be shorter than `min_batch_duration`. -/
theorem effective_duration_bounds (cfg : BatchingConfig) (hv : cfg.valid) (L : ℕ)
    (events : List BatcherEvent)
    (hL : ∀ s sil ms, BatcherEvent.chunk s sil ms ∈ events → s.length ≤ L) :
    ∀ b ∈ emittedBatches cfg events,
      (b.forced = false → cfg.min_batch_duration ≤ effectiveDuration cfg b) ∧
      effectiveDuration cfg b <
        cfg.max_batch_duration + (L : ℚ) / (cfg.sample_rate : ℚ) := by
  obtain ⟨hmin, hminmax, hsil, hrate⟩ := hv
  have hrateQ : (0 : ℚ) < (cfg.sample_rate : ℚ) := by exact_mod_cast hrate
  have hLQ : (0 : ℚ) ≤ (L : ℚ) / (cfg.sample_rate : ℚ) :=
    div_nonneg (by positivity) (le_of_lt hrateQ)
  have hmax0 : (0 : ℚ) < cfg.max_batch_duration := lt_trans hmin hminmax
  have hreset : ∀ st2 : BatcherState, pendingOk cfg (reset_batch st2) := by
    intro st2
    unfold pendingOk reset_batch
    simpa using hmax0
  have hinit : pendingOk cfg initialBatcherState := by
    unfold pendingOk initialBatcherState
    simpa using hmax0
  refine runBatcher_forall cfg _ (pendingOk cfg)
    (fun e => ∀ s sil ms, e = .chunk s sil ms → s.length ≤ L)
    ?_ events initialBatcherState
    (fun e he s sil ms heq => hL s sil ms (heq ▸ he)) hinit
  intro st e hI hE
  cases e with
  | flush =>
    rw [show batcherStep cfg st .flush = force_batch cfg st from rfl, force_batch_eq]
    by_cases hcur : 0 < st.currentBatch.length
    · rw [if_pos hcur]
      refine ⟨hreset _, fun b hb => ?_⟩
      simp only [Option.some.injEq] at hb
      subst hb
      refine ⟨fun hf => ?_, ?_⟩
      · rw [create_batch_forced] at hf
        exact absurd hf (by simp)
      · show effectiveDuration cfg _ < _
        unfold effectiveDuration
        rw [create_batch_realLen]
        exact lt_of_lt_of_le hI (le_add_of_nonneg_right hLQ)
    · rw [if_neg hcur]
      exact ⟨hI, by simp⟩
  | chunk samples isSil ms =>
    have hs : samples.length ≤ L := hE samples isSil ms rfl
    rw [show batcherStep cfg st (.chunk samples isSil ms) =
        process_audio_chunk cfg st samples isSil ms from rfl, process_audio_chunk_eq]
    by_cases hg : cfg.max_batch_duration ≤
          ((st.currentBatch ++ samples).length : ℚ) / (cfg.sample_rate : ℚ) ∨
        (cfg.min_batch_duration ≤
            ((st.currentBatch ++ samples).length : ℚ) / (cfg.sample_rate : ℚ) ∧
          isSil = true ∧ cfg.silence_threshold ≤ ms)
    · rw [if_pos hg]
      refine ⟨hreset _, fun b hb => ?_⟩
      simp only [Option.some.injEq] at hb
      subst hb
      have heff : effectiveDuration cfg (create_batch cfg
          ⟨st.currentBatch ++ samples, st.sequenceId, st.previousBatchAudio⟩ false).2 =
          ((st.currentBatch ++ samples).length : ℚ) / (cfg.sample_rate : ℚ) := by
        unfold effectiveDuration
        rw [create_batch_realLen]
      refine ⟨fun _ => ?_, ?_⟩
      · rw [heff]
        rcases hg with h | h
        · exact le_trans (le_of_lt hminmax) h
        · exact h.1
      · rw [heff]
        have hsplit : ((st.currentBatch ++ samples).length : ℚ) =
            (st.currentBatch.length : ℚ) + (samples.length : ℚ) := by
          push_cast [List.length_append]
          ring
        rw [hsplit, add_div]
        exact add_lt_add_of_lt_of_le hI
          ((div_le_div_iff_of_pos_right hrateQ).mpr (by exact_mod_cast hs))
    · rw [if_neg hg]
      refine ⟨?_, by simp⟩
      unfold pendingOk
      exact not_le.mp (fun hm => hg (Or.inl hm))

/-- Witness for `effective_duration_bounds` on the tight configuration and a
single bounded chunk. -/
theorem effective_duration_bounds_witness :
    cfgTight.valid ∧
    (∀ s sil ms, BatcherEvent.chunk s sil ms ∈ eventsTight → s.length ≤ 3) ∧
    (∀ b ∈ emittedBatches cfgTight eventsTight,
      (b.forced = false → cfgTight.min_batch_duration ≤ effectiveDuration cfgTight b) ∧
      effectiveDuration cfgTight b <
        cfgTight.max_batch_duration + ((3 : ℕ) : ℚ) / (cfgTight.sample_rate : ℚ)) :=
  ⟨cfgTight_valid,
    by
      intro s sil ms h
      rw [eventsTight, List.mem_singleton] at h
      injection h with h1 h2 h3
      subst h1
      decide,
    effective_duration_bounds cfgTight cfgTight_valid 3 eventsTight
      (by
        intro s sil ms h
        rw [eventsTight, List.mem_singleton] at h
        injection h with h1 h2 h3
        subst h1
        decide)⟩

theorem create_batch_link (cfg : BatchingConfig) (st : BatcherState) (p : List ℤ)
    (hp : st.previousBatchAudio = some p) (forced : Bool)
    (hn : 0 < overlapSampleCount cfg) :
    overlapLink (overlapSampleCount cfg).toNat p
      (create_batch cfg st forced).2.audioData := by
  set n' := overlapSampleCount cfg with hn'
  set n := n'.toNat with hnn
  have hn0 : 0 < n := by omega
  unfold create_batch calculate_overlap
  rw [hp]
  simp only [← hn']
  by_cases hlt : (p.length : ℤ) < n'
  · rw [if_pos hlt]
    have hplt : p.length < n := by omega
    unfold overlapLink
    rw [if_neg (by omega)]
    by_cases hp0 : 0 < p.length
    · simp only [if_pos hp0]
      exact List.take_left p _
    · have hpnil : p = [] := by
        cases p with
        | nil => rfl
        | cons a l => simp at hp0
      subst hpnil
      simp
  · rw [if_neg hlt]
    have hle : n ≤ p.length := by omega
    unfold lastSliceFrom
    rw [if_neg (by omega)]
    unfold overlapLink
    rw [if_pos hle]
    by_cases heq : (p.length : ℤ) ≤ n'
    · rw [if_pos heq]
      have hlen : p.length = n := by omega
      have hdrop : p.drop (p.length - n) = p := by
        rw [hlen]
        simp
      rw [hdrop]
      simp only [if_pos (by omega : 0 < p.length)]
      rw [← hlen]
      exact List.take_left p _
    · rw [if_neg heq]
      have hlen : (p.drop (p.length - n)).length = n := by
        rw [List.length_drop]
        omega
      have h0 : 0 < (p.drop (p.length - n)).length := by omega
      simp only [if_pos h0]
      exact List.take_left' hlen

theorem batcherStep_prev (cfg : BatchingConfig) (st : BatcherState) (e : BatcherEvent) :
    ((batcherStep cfg st e).2 = none ∧
      (batcherStep cfg st e).1.previousBatchAudio = st.previousBatchAudio) ∨
    (∃ b, (batcherStep cfg st e).2 = some b ∧
      (batcherStep cfg st e).1.previousBatchAudio = some b.audioData ∧
      (∀ p, st.previousBatchAudio = some p → 0 < overlapSampleCount cfg →
        overlapLink (overlapSampleCount cfg).toNat p b.audioData)) := by
  cases e with
  | flush =>
    rw [show batcherStep cfg st .flush = force_batch cfg st from rfl, force_batch_eq]
    by_cases hcur : 0 < st.currentBatch.length
    · rw [if_pos hcur]
      refine Or.inr ⟨(create_batch cfg st true).2, rfl, ?_, ?_⟩
      · exact create_batch_prev cfg st true
      · intro p hp hn
        exact create_batch_link cfg st p hp true hn
    · rw [if_neg hcur]
      exact Or.inl ⟨rfl, rfl⟩
  | chunk samples isSil ms =>
    rw [show batcherStep cfg st (.chunk samples isSil ms) =
        process_audio_chunk cfg st samples isSil ms from rfl, process_audio_chunk_eq]
    by_cases hg : cfg.max_batch_duration ≤
          ((st.currentBatch ++ samples).length : ℚ) / (cfg.sample_rate : ℚ) ∨
        (cfg.min_batch_duration ≤
            ((st.currentBatch ++ samples).length : ℚ) / (cfg.sample_rate : ℚ) ∧
          isSil = true ∧ cfg.silence_threshold ≤ ms)
    · rw [if_pos hg]
      refine Or.inr ⟨_, rfl, ?_, ?_⟩
      · exact create_batch_prev cfg _ false
      · intro p hp hn
        exact create_batch_link cfg
          ⟨st.currentBatch ++ samples, st.sequenceId, st.previousBatchAudio⟩ p hp false hn
    · rw [if_neg hg]
      exact Or.inl ⟨rfl, rfl⟩

theorem overlap_chain (cfg : BatchingConfig) (hn : 0 < overlapSampleCount cfg) :
    ∀ (events : List BatcherEvent) (st : BatcherState),
      List.Chain' (overlapConsistent (overlapSampleCount cfg).toNat)
        (runBatcher cfg st events).2 ∧
      (∀ p, st.previousBatchAudio = some p →
        ∀ b0 ∈ ((runBatcher cfg st events).2).head?,
          overlapLink (overlapSampleCount cfg).toNat p b0.audioData) := by
  intro events
  induction events with
  | nil =>
    intro st
    refine ⟨by simp [runBatcher], ?_⟩
    intro p hp b0 hb0
    simp [runBatcher] at hb0
  | cons e es ih =>
    intro st
    have hrun : (runBatcher cfg st (e :: es)).2 =
        (match (batcherStep cfg st e).2 with | some b => [b] | none => []) ++
          (runBatcher cfg (batcherStep cfg st e).1 es).2 := rfl
    rcases batcherStep_prev cfg st e with ⟨hnone, hprev⟩ | ⟨b, hsome, hprev, hlink⟩
    · rw [hrun, hnone]
      simp only [List.nil_append]
      refine ⟨(ih (batcherStep cfg st e).1).1, ?_⟩
      intro p hp b0 hb0
      exact (ih (batcherStep cfg st e).1).2 p (hprev.trans hp) b0 hb0
    · rw [hrun, hsome]
      simp only [List.singleton_append]
      constructor
      · rw [List.chain'_cons']
        refine ⟨?_, (ih (batcherStep cfg st e).1).1⟩
        intro y hy
        exact (ih (batcherStep cfg st e).1).2 b.audioData hprev y hy
      · intro p hp b0 hb0
        rw [List.head?_cons, Option.mem_some_iff] at hb0
        subst hb0
        exact hlink p hp hn

/-- C5 amended: for consecutively emitted batches with a positive overlap
window of `n` samples, when the earlier batch has at least `n` samples its
last `n` samples equal the first `n` samples of the next batch; when it is
shorter (possible only through a forced flush) the whole earlier batch is
replayed as a prefix of the next batch instead. -/
theorem overlap_invariant_amended (cfg : BatchingConfig) (events : List BatcherEvent)
    (hn : 0 < overlapSampleCount cfg) :
    List.Chain' (overlapConsistent (overlapSampleCount cfg).toNat)
      (emittedBatches cfg events) :=
  (overlap_chain cfg hn events initialBatcherState).1

theorem overlapSampleCount_cfgOverlap : overlapSampleCount cfgOverlap = 2 := by
  unfold overlapSampleCount cfgOverlap truncToInt
  norm_num

theorem calc_overlap_five : calculate_overlap cfgOverlap (some [5]) = some [5] := by
  unfold calculate_overlap
  rw [overlapSampleCount_cfgOverlap]
  norm_num

theorem runBatcher_cons (cfg : BatchingConfig) (st : BatcherState)
    (e : BatcherEvent) (es : List BatcherEvent) :
    runBatcher cfg st (e :: es) =
      ((runBatcher cfg (batcherStep cfg st e).1 es).1,
        (match (batcherStep cfg st e).2 with | some b => [b] | none => []) ++
          (runBatcher cfg (batcherStep cfg st e).1 es).2) := rfl

theorem ov_step1 :
    batcherStep cfgOverlap ⟨[], 0, none⟩ (.chunk [5] false 0) = (⟨[5], 0, none⟩, none) := by
  rw [show batcherStep cfgOverlap ⟨[], 0, none⟩ (.chunk [5] false 0) =
      process_audio_chunk cfgOverlap ⟨[], 0, none⟩ [5] false 0 from rfl,
    process_audio_chunk_eq, if_neg ?hg]
  · rfl
  case hg =>
    rintro (h | ⟨h1, h2, h3⟩)
    · rw [show cfgOverlap.max_batch_duration = 10 from rfl,
        show cfgOverlap.sample_rate = 1 from rfl] at h
      norm_num at h
    · exact absurd h2 (by decide)

theorem ov_step2 :
    batcherStep cfgOverlap ⟨[5], 0, none⟩ .flush =
      (⟨[], 1, some [5]⟩, some ⟨[5], 0, 1, true⟩) := by
  rw [show batcherStep cfgOverlap ⟨[5], 0, none⟩ .flush =
      force_batch cfgOverlap ⟨[5], 0, none⟩ from rfl,
    force_batch_eq, if_pos (by decide)]
  rfl

theorem ov_step3 :
    batcherStep cfgOverlap ⟨[], 1, some [5]⟩ (.chunk [7] false 0) =
      (⟨[7], 1, some [5]⟩, none) := by
  rw [show batcherStep cfgOverlap ⟨[], 1, some [5]⟩ (.chunk [7] false 0) =
      process_audio_chunk cfgOverlap ⟨[], 1, some [5]⟩ [7] false 0 from rfl,
    process_audio_chunk_eq, if_neg ?hg]
  · rfl
  case hg =>
    rintro (h | ⟨h1, h2, h3⟩)
    · rw [show cfgOverlap.max_batch_duration = 10 from rfl,
        show cfgOverlap.sample_rate = 1 from rfl] at h
      norm_num at h
    · exact absurd h2 (by decide)

theorem ov_step4 :
    batcherStep cfgOverlap ⟨[7], 1, some [5]⟩ .flush =
      (⟨[], 2, some [5, 7]⟩, some ⟨[5, 7], 1, 1, true⟩) := by
  rw [show batcherStep cfgOverlap ⟨[7], 1, some [5]⟩ .flush =
      force_batch cfgOverlap ⟨[7], 1, some [5]⟩ from rfl,
    force_batch_eq, if_pos (by decide)]
  unfold create_batch
  rw [calc_overlap_five]
  rfl

theorem emitted_overlap :
    emittedBatches cfgOverlap eventsOverlap =
      [⟨[5], 0, 1, true⟩, ⟨[5, 7], 1, 1, true⟩] := by
  have h4 : runBatcher cfgOverlap ⟨[7], 1, some [5]⟩ [.flush] =
      (⟨[], 2, some [5, 7]⟩, [⟨[5, 7], 1, 1, true⟩]) := by
    rw [runBatcher_cons, ov_step4]
    rfl
  have h3 : runBatcher cfgOverlap ⟨[], 1, some [5]⟩ [.chunk [7] false 0, .flush] =
      (⟨[], 2, some [5, 7]⟩, [⟨[5, 7], 1, 1, true⟩]) := by
    rw [runBatcher_cons, ov_step3]
    rw [show (((⟨[7], 1, some [5]⟩ : BatcherState), (none : Option EmittedBatch))).1 =
        (⟨[7], 1, some [5]⟩ : BatcherState) from rfl, h4]
    rfl
  have h2 : runBatcher cfgOverlap ⟨[5], 0, none⟩ [.flush, .chunk [7] false 0, .flush] =
      (⟨[], 2, some [5, 7]⟩,
        [⟨[5], 0, 1, true⟩, ⟨[5, 7], 1, 1, true⟩]) := by
    rw [runBatcher_cons, ov_step2]
    rw [show (((⟨[], 1, some [5]⟩ : BatcherState),
        (some (⟨[5], 0, 1, true⟩ : EmittedBatch)))).1 =
        (⟨[], 1, some [5]⟩ : BatcherState) from rfl, h3]
    rfl
  unfold emittedBatches eventsOverlap initialBatcherState
  rw [runBatcher_cons, ov_step1]
  rw [show (((⟨[5], 0, none⟩ : BatcherState), (none : Option EmittedBatch))).1 =
      (⟨[5], 0, none⟩ : BatcherState) from rfl, h2]
  rfl

/-- C5 counterexample: a forced flush can emit a batch shorter than the
overlap window; the next batch then starts with that whole batch, so its
first `overlap_duration * sample_rate` samples are not the last
`overlap_duration * sample_rate` samples of the previous batch. -/
theorem overlap_invariant_counterexample :
    0 < overlapSampleCount cfgOverlap ∧
    emittedBatches cfgOverlap eventsOverlap =
      [⟨[5], 0, 1, true⟩, ⟨[5, 7], 1, 1, true⟩] ∧
    ¬ ((⟨[5, 7], 1, 1, true⟩ : EmittedBatch).audioData.take
          (overlapSampleCount cfgOverlap).toNat =
        (⟨[5], 0, 1, true⟩ : EmittedBatch).audioData.drop
          ((⟨[5], 0, 1, true⟩ : EmittedBatch).audioData.length -
            (overlapSampleCount cfgOverlap).toNat)) := by
  refine ⟨?_, emitted_overlap, ?_⟩
  · rw [overlapSampleCount_cfgOverlap]
    norm_num
  · rw [overlapSampleCount_cfgOverlap]
    decide

/-- Witness for `overlap_invariant_amended` on the overlap configuration and
the forced-flush feed. -/
theorem overlap_invariant_amended_witness :
    0 < overlapSampleCount cfgOverlap ∧
    List.Chain' (overlapConsistent (overlapSampleCount cfgOverlap).toNat)
      (emittedBatches cfgOverlap eventsOverlap) :=
  ⟨by rw [overlapSampleCount_cfgOverlap]; norm_num,
    overlap_invariant_amended cfgOverlap eventsOverlap
      (by rw [overlapSampleCount_cfgOverlap]; norm_num)⟩


theorem should_retry_iff (mr : ℕ) (base : ℚ) (attempt : ℕ) :
    ((⟨mr, base, attempt⟩ : RetryManager).should_retry = true) ↔ attempt < mr := by
  simp [RetryManager.should_retry]

theorem asyncRetryRun_calls_le {α : Type} (outcome : ℕ → Option α) (mr : ℕ) (base : ℚ) :
    ∀ (fuel attempt : ℕ), (asyncRetryRun outcome mr base attempt fuel).calls ≤ fuel := by
  intro fuel
  induction fuel with
  | zero => intro attempt; simp [asyncRetryRun]
  | succ fuel ih =>
    intro attempt
    simp only [asyncRetryRun]
    by_cases hlt : attempt < mr
    · rw [if_pos ((should_retry_iff mr base attempt).mpr hlt)]
      cases houtcome : outcome attempt with
      | some a => simp
      | none =>
        simp only
        have := ih (attempt + 1)
        omega
    · rw [if_neg (fun h => hlt ((should_retry_iff mr base attempt).mp h))]
      simp

theorem asyncRetryRun_delays {α : Type} (outcome : ℕ → Option α) (mr : ℕ) (base : ℚ) :
    ∀ (fuel attempt : ℕ), 1 ≤ attempt →
      (asyncRetryRun outcome mr base attempt fuel).delays =
        (List.range (asyncRetryRun outcome mr base attempt fuel).calls).map
          (fun k => base * (2 : ℚ) ^ (attempt - 1 + k)) := by
  intro fuel
  induction fuel with
  | zero => intro attempt _; simp [asyncRetryRun]
  | succ fuel ih =>
    intro attempt hatt
    have hdelay : (⟨mr, base, attempt⟩ : RetryManager).waitDelay =
        some (base * (2 : ℚ) ^ (attempt - 1)) := by
      unfold RetryManager.waitDelay RetryManager.get_delay
      rw [if_pos (by omega : 0 < attempt)]
      congr 1
      have hcast : ((attempt : ℤ) - 1) = ((attempt - 1 : ℕ) : ℤ) := by omega
      rw [hcast, zpow_natCast]
    simp only [asyncRetryRun]
    by_cases hlt : attempt < mr
    · rw [if_pos ((should_retry_iff mr base attempt).mpr hlt), hdelay]
      cases houtcome : outcome attempt with
      | some a =>
        simp only
        rw [show List.range 1 = [0] from rfl, List.map_singleton, Nat.add_zero]
      | none =>
        simp only
        rw [ih (attempt + 1) (by omega)]
        have hrw : 1 + (asyncRetryRun outcome mr base (attempt + 1) fuel).calls =
            (asyncRetryRun outcome mr base (attempt + 1) fuel).calls + 1 := by omega
        rw [hrw, List.range_succ_eq_map, List.map_cons, List.map_map,
          List.singleton_append]
        congr 1
        congr 1
        funext k
        simp only [Function.comp_apply]
        have hexp : attempt + 1 - 1 + k = attempt - 1 + (k + 1) := by omega
        rw [hexp]
    · rw [if_neg (fun h => hlt ((should_retry_iff mr base attempt).mp h))]
      simp

theorem asyncRetryRun_result {α : Type} (outcome : ℕ → Option α) (mr : ℕ) (base : ℚ) :
    ∀ (fuel attempt : ℕ), mr ≤ attempt + fuel →
      (asyncRetryRun outcome mr base attempt fuel).result =
        (List.range' attempt (mr - attempt)).findSome? outcome := by
  intro fuel
  induction fuel with
  | zero =>
    intro attempt h
    have h0 : mr - attempt = 0 := by omega
    rw [h0]
    simp [asyncRetryRun]
  | succ fuel ih =>
    intro attempt h
    simp only [asyncRetryRun]
    by_cases hlt : attempt < mr
    · rw [if_pos ((should_retry_iff mr base attempt).mpr hlt)]
      have hsub : mr - attempt = (mr - (attempt + 1)) + 1 := by omega
      rw [hsub, List.range'_succ, List.findSome?_cons]
      cases houtcome : outcome attempt with
      | some a => simp
      | none =>
        simp only
        exact ih (attempt + 1) (by omega)
    · rw [if_neg (fun hc => hlt ((should_retry_iff mr base attempt).mp hc))]
      have h0 : mr - attempt = 0 := by omega
      rw [h0]
      simp

/-- C7: each provider call is retried with exponential backoff — the delay
slept before retry number `n` is `base_delay * 2 ^ (n - 1)` — at most
`max_retries` calls are issued per model, failure of any kind (the oracle
returning `none`, regardless of exception) leads to the next attempt, the
overall result is the first success among the first `max_retries` call
outcomes, and a model whose retries are exhausted makes the dispatcher fall
through to the next model of the ordered fallback list. -/
theorem retry_backoff_and_fallback {α μ : Type} (outcome : ℕ → Option α)
    (oracles : μ → ℕ → Option α) (mr : ℕ) (base : ℚ) (m : μ) (rest : List μ) :
    (async_retry outcome mr base).calls ≤ mr ∧
    (async_retry outcome mr base).delays =
      (List.range ((async_retry outcome mr base).calls - 1)).map
        (fun k => base * (2 : ℚ) ^ k) ∧
    (async_retry outcome mr base).result = (List.range mr).findSome? outcome ∧
    ((async_retry (oracles m) mr base).result = none →
      transcribe_batch_with_fallback
          (fun m2 => (async_retry (oracles m2) mr base).result) (m :: rest) =
        transcribe_batch_with_fallback
          (fun m2 => (async_retry (oracles m2) mr base).result) rest) := by
  refine ⟨asyncRetryRun_calls_le outcome mr base mr 0, ?_, ?_, ?_⟩
  · cases mr with
    | zero => simp [async_retry, asyncRetryRun]
    | succ n =>
      unfold async_retry
      simp only [asyncRetryRun]
      rw [if_pos ((should_retry_iff (n + 1) base 0).mpr (by omega))]
      cases houtcome : outcome 0 with
      | some a =>
        simp [RetryManager.waitDelay]
      | none =>
        simp only [RetryManager.waitDelay, if_neg (by omega : ¬ 0 < 0)]
        rw [List.nil_append, asyncRetryRun_delays outcome (n + 1) base n 1 (by omega)]
        have hsub : 1 + (asyncRetryRun outcome (n + 1) base 1 n).calls - 1 =
            (asyncRetryRun outcome (n + 1) base 1 n).calls := by omega
        rw [hsub]
        congr 1
        funext k
        rw [Nat.sub_self, Nat.zero_add]
  · cases mr with
    | zero => simp [async_retry, asyncRetryRun]
    | succ n =>
      unfold async_retry
      simp only [asyncRetryRun]
      rw [if_pos ((should_retry_iff (n + 1) base 0).mpr (by omega))]
      have hrange : List.range (n + 1) = 0 :: List.range' 1 n := by
        rw [List.range_eq_range', List.range'_succ]
      rw [hrange, List.findSome?_cons]
      cases houtcome : outcome 0 with
      | some a => simp
      | none =>
        simp only
        rw [asyncRetryRun_result outcome (n + 1) base n 1 (by omega),
          show n + 1 - 1 = n from rfl]
  · intro hfail
    show (match (async_retry (oracles m) mr base).result with
      | some a => some a
      | none => transcribe_batch_with_fallback
          (fun m2 => (async_retry (oracles m2) mr base).result) rest) = _
    rw [hfail]

/-- Witness for `retry_backoff_and_fallback`: success on the third call with
delays `[1, 2]`, and an always-failing first model falling through to the
second. -/
theorem retry_backoff_and_fallback_witness :
    (async_retry outcomeThird 3 1).calls ≤ 3 ∧
    (async_retry outcomeThird 3 1).delays =
      (List.range ((async_retry outcomeThird 3 1).calls - 1)).map
        (fun k => (1 : ℚ) * (2 : ℚ) ^ k) ∧
    (async_retry outcomeThird 3 1).result = (List.range 3).findSome? outcomeThird ∧
    transcribe_batch_with_fallback
        (fun m2 => (async_retry (modelOracles m2) 3 1).result) (0 :: [1]) =
      transcribe_batch_with_fallback
        (fun m2 => (async_retry (modelOracles m2) 3 1).result) [1] := by
  have h := retry_backoff_and_fallback outcomeThird modelOracles 3 1 0 [1]
  exact ⟨h.1, h.2.1, h.2.2.1, h.2.2.2 rfl⟩
